import Mathlib

/-!
Verification of the snapclass-LLM RAG server (`server/main2.py`).

Text is modelled as `List Char`.  The orchestration code (`extract_pdf_text`,
`build_prompt`, `ask_model`, the build loop, the HTTP handlers) is embedded
directly from the source.  The chunker (langchain's recursive splitter), the
vector index (chromadb) and the embedder are external libraries not present in
the repository, so they are modelled from the spec where needed.
-/

abbrev Str := List Char

namespace Snap

/-! ## Chunker (modelled from the spec) -/

/-- Modelled from the spec: splitting on a structural separator character,
keeping the separator attached to the preceding piece so that the pieces
concatenate back to the input.  The langchain splitter implementing this is an
external library, absent from the repository. -/
def splitKeepSep (c : Char) : Str → List Str
  | [] => []
  | x :: xs =>
    match splitKeepSep c xs with
    | [] => [[x]]
    | p :: ps => if x = c then [x] :: p :: ps else (x :: p) :: ps

/-- Modelled from the spec: the raw-character fallback, cutting the text into
consecutive pieces of at most `size` characters. -/
def hardSplit (size : Nat) : Str → List Str
  | [] => []
  | x :: xs => (x :: xs.take (size - 1)) :: hardSplit size (xs.drop (size - 1))
termination_by s => s.length
decreasing_by simp [List.length_drop]; omega

/-- Modelled from the spec: recursive preference of structural separators —
try the largest separator first; any piece still exceeding the target size is
split again with the next smaller separator, falling back to raw-character
splitting when the separator list is exhausted. -/
def recSplit (seps : List Char) (size : Nat) (s : Str) : List Str :=
  match seps with
  | [] => hardSplit size s
  | c :: rest =>
    (splitKeepSep c s).flatMap
      (fun p => if p.length ≤ size then [p] else recSplit rest size p)

/-- Modelled from the spec: greedy merge of the split pieces into chunks of at
most `size` characters; when a chunk is emitted, up to `overlap` trailing
characters are carried into the next chunk.  Each produced pair is
`(chunk, k)` where the first `k` characters of `chunk` are the carried-over
overlap.  Empty accumulations are dropped, never emitted. -/
def mergeAux (size overlap : Nat) (cur : Str) (k : Nat) : List Str → List (Str × Nat)
  | [] => if cur.isEmpty then [] else [(cur, k)]
  | p :: ps =>
    if cur.length + p.length ≤ size then
      mergeAux size overlap (cur ++ p) k ps
    else
      if cur.isEmpty then
        mergeAux size overlap p 0 ps
      else
        let o := min overlap (size - p.length)
        let tail := cur.drop (cur.length - o)
        (cur, k) :: mergeAux size overlap (tail ++ p) tail.length ps

/-- Configuration constant from the source: `CHUNK_SIZE = 500`. -/
def CHUNK_SIZE : Nat := 500

/-- Configuration constant from the source: `CHUNK_OVERLAP = 50`. -/
def CHUNK_OVERLAP : Nat := 50

/-- Modelled from the spec: the separator hierarchy — paragraph, then
sentence, then word, then raw character. -/
def separators : List Char := ['\n', '.', ' ']

/-- Modelled from the spec: the chunker with its overlap bookkeeping — each
chunk is paired with the length of its carried-over overlap. -/
def create_chunksAnnotated (text : Str) : List (Str × Nat) :=
  mergeAux CHUNK_SIZE CHUNK_OVERLAP [] 0 (recSplit separators CHUNK_SIZE text)

/-- Embedding of `create_chunks` from the source: splits the document text with chunk size
500 and overlap 50.  The splitter itself is the langchain library, modelled
from the spec above. -/
def create_chunks (text : Str) : List Str :=
  (create_chunksAnnotated text).map Prod.fst

/-! ### Chunker lemmas -/

theorem join_splitKeepSep (c : Char) (s : Str) :
    (splitKeepSep c s).flatten = s := by
  induction s with
  | nil => rfl
  | cons x xs ih =>
    simp only [splitKeepSep]
    cases h : splitKeepSep c xs with
    | nil => simp [h] at ih; simp [ih]
    | cons p ps =>
      rw [h] at ih
      by_cases hx : x = c <;> simp [hx, ← ih]

theorem join_hardSplit (size : Nat) (s : Str) :
    (hardSplit size s).flatten = s := by
  induction s using hardSplit.induct size with
  | case1 => simp [hardSplit]
  | case2 x xs ih =>
    rw [hardSplit]
    simp [ih, List.take_append_drop]

theorem join_recSplit (seps : List Char) (size : Nat) (s : Str) :
    (recSplit seps size s).flatten = s := by
  induction seps generalizing s with
  | nil => exact join_hardSplit size s
  | cons c rest ih =>
    rw [recSplit]
    have key : ∀ ps : List Str,
        (ps.flatMap (fun p => if p.length ≤ size then [p] else recSplit rest size p)).flatten
          = ps.flatten := by
      intro ps
      induction ps with
      | nil => rfl
      | cons p ps ihp =>
        by_cases hp : p.length ≤ size <;>
          simp [hp, ihp, ih]
    rw [key, join_splitKeepSep]

theorem hardSplit_length_le (size : Nat) (hsize : 1 ≤ size) (s : Str) :
    ∀ p ∈ hardSplit size s, p.length ≤ size := by
  induction s using hardSplit.induct size with
  | case1 => intro p hp; simp [hardSplit] at hp
  | case2 x xs ih =>
    intro p hp
    rw [hardSplit, List.mem_cons] at hp
    rcases hp with hp | hp
    · subst hp
      simp only [List.length_cons]
      have := List.length_take_le (size - 1) xs
      omega
    · exact ih p hp

theorem recSplit_length_le (seps : List Char) (size : Nat) (hsize : 1 ≤ size)
    (s : Str) : ∀ p ∈ recSplit seps size s, p.length ≤ size := by
  induction seps generalizing s with
  | nil => exact hardSplit_length_le size hsize s
  | cons c rest ih =>
    intro p hp
    rw [recSplit] at hp
    simp only [List.mem_flatMap] at hp
    obtain ⟨q, _, hq⟩ := hp
    by_cases hql : q.length ≤ size
    · simp [hql] at hq; simpa [hq]
    · simp [hql] at hq
      exact ih q p hq

theorem mergeAux_length_le (size overlap : Nat) (cur : Str) (k : Nat)
    (ps : List Str) (hcur : cur.length ≤ size)
    (hps : ∀ p ∈ ps, p.length ≤ size) :
    ∀ c ∈ mergeAux size overlap cur k ps, c.1.length ≤ size := by
  induction ps generalizing cur k with
  | nil =>
    intro c hc
    rw [mergeAux] at hc
    by_cases h : cur.isEmpty <;> simp [h] at hc
    simp [hc, hcur]
  | cons p ps ih =>
    intro c hc
    have hp : p.length ≤ size := hps p (by simp)
    have hps' : ∀ q ∈ ps, q.length ≤ size := fun q hq => hps q (by simp [hq])
    rw [mergeAux] at hc
    by_cases h1 : cur.length + p.length ≤ size
    · rw [if_pos h1] at hc
      exact ih (cur ++ p) k (by simp; omega) hps' c hc
    · rw [if_neg h1] at hc
      by_cases h2 : cur.isEmpty
      · rw [if_pos h2] at hc
        exact ih p 0 hp hps' c hc
      · rw [if_neg h2] at hc
        simp only [List.mem_cons] at hc
        rcases hc with hc | hc
        · simp [hc, hcur]
        · refine ih _ _ ?_ hps' c hc
          have htail : (cur.drop (cur.length - min overlap (size - p.length))).length
              ≤ size - p.length := by
            simp only [List.length_drop]
            omega
          simp only [List.length_append]
          omega

theorem mergeAux_join (size overlap : Nat) (cur : Str) (k : Nat)
    (ps : List Str) (hk : k ≤ cur.length) :
    ((mergeAux size overlap cur k ps).map (fun c => c.1.drop c.2)).flatten
      = cur.drop k ++ ps.flatten := by
  induction ps generalizing cur k with
  | nil =>
    rw [mergeAux]
    by_cases h : cur.isEmpty
    · have : cur = [] := by simpa [List.isEmpty_iff] using h
      simp [h, this]
    · simp [h]
  | cons p ps ih =>
    rw [mergeAux]
    by_cases h1 : cur.length + p.length ≤ size
    · rw [if_pos h1]
      rw [ih (cur ++ p) k (by simp; omega)]
      simp [List.drop_append_of_le_length hk]
    · rw [if_neg h1]
      by_cases h2 : cur.isEmpty
      · rw [if_pos h2]
        have : cur = [] := by simpa [List.isEmpty_iff] using h2
        rw [ih p 0 (Nat.zero_le _)]
        simp [this]
      · rw [if_neg h2]
        simp only [List.map_cons, List.flatten_cons]
        rw [ih _ _ (by simp)]
        simp [List.drop_left]

/-! ## Text Extractor (from `extract_pdf_text`) -/

/-- Embedding of `extract_pdf_text` from the source.  Page decoding is the external PyPDF2
library; a readable document is modelled as the list of its pages' extracted
texts.  The source accumulates `text += page.extract_text() + "\n"` over the
pages in order. -/
def extract_pdf_text (pages : List Str) : Str :=
  pages.foldl (fun text page => text ++ page ++ ['\n']) []

theorem extract_pdf_text_foldl (acc : Str) (pages : List Str) :
    pages.foldl (fun text page => text ++ page ++ ['\n']) acc
      = acc ++ (pages.map (fun p => p ++ ['\n'])).flatten := by
  induction pages generalizing acc with
  | nil => simp
  | cons p ps ih =>
    rw [List.foldl_cons, ih]
    simp

/-- Claim C6 (counterexample): for the one-page document with page text
`"a"`, the claimed join-with-separator formula predicts `"a"`, but the code
produces `"a\n"` — a newline is appended after the final page as well. -/
theorem claim_C6_counterexample :
    extract_pdf_text [['a']] = ['a', '\n'] ∧ extract_pdf_text [['a']] ≠ ['a'] := by
  constructor <;> decide

/-- Claim C6 (amended): the Text Extractor produces the document's full text
by reading each page in order and appending each extracted per-page text
followed by a newline terminator, so for pages p1..pn the result is
p1 ++ "\n" ++ p2 ++ "\n" ++ ... ++ pn ++ "\n" (a trailing newline after the
last page as well). -/
theorem claim_C6_amended (pages : List Str) :
    extract_pdf_text pages = (pages.map (fun p => p ++ ['\n'])).flatten := by
  rw [extract_pdf_text, extract_pdf_text_foldl]
  simp

/-! ## Prompt Builder (from `build_prompt`) -/

/-- Embedding of `build_prompt` from the source: the f-string template, including the
indentation that the triple-quoted literal carries on each line. -/
def build_prompt (context : Str) (question : Str) : Str :=
  ("You are Snap Assistant.\n    Use the following manual context to answer:\n\n    ").data
    ++ context
    ++ ("\n\n    Question: ").data
    ++ question
    ++ ("\n    Answer:").data

/-- Claim C7: the Prompt Builder output follows the fixed template — the role
statement and instruction, then the context block, then the question, then
the trailing answer cue — and therefore contains the context and the question
as substrings; as a Lean function of its two arguments it is pure and
deterministic. -/
theorem claim_C7_build_prompt (context question : Str) :
    build_prompt context question
        = ("You are Snap Assistant.\n    Use the following manual context to answer:\n\n    ").data
          ++ context ++ ("\n\n    Question: ").data ++ question ++ ("\n    Answer:").data
      ∧ (∃ s t, build_prompt context question = s ++ context ++ t)
      ∧ (∃ s t, build_prompt context question = s ++ question ++ t) := by
  refine ⟨rfl,
    ⟨("You are Snap Assistant.\n    Use the following manual context to answer:\n\n    ").data,
      ("\n\n    Question: ").data ++ question ++ ("\n    Answer:").data,
      by simp [build_prompt]⟩,
    ⟨("You are Snap Assistant.\n    Use the following manual context to answer:\n\n    ").data
        ++ context ++ ("\n\n    Question: ").data,
      ("\n    Answer:").data,
      by simp [build_prompt]⟩⟩

/-- Claim C3: every chunk produced by the chunker (chunk size 500, overlap 50)
has length at most 500; with the raw-character fallback no indivisible token
survives oversized, so the bound holds without exception. -/
theorem claim_C3_chunk_length_le (text : Str) :
    ∀ chunk ∈ create_chunks text, chunk.length ≤ 500 := by
  intro chunk hchunk
  simp only [create_chunks, List.mem_map] at hchunk
  obtain ⟨c, hc, rfl⟩ := hchunk
  exact mergeAux_length_le CHUNK_SIZE CHUNK_OVERLAP [] 0 _
    (by simp [CHUNK_SIZE])
    (recSplit_length_le separators CHUNK_SIZE (by decide) text) c hc

theorem claim_C3_witness :
    (['a', 'b'] ∈ create_chunks ['a', 'b']) ∧ (['a', 'b'] : Str).length ≤ 500 :=
  ⟨by decide, claim_C3_chunk_length_le ['a', 'b'] ['a', 'b'] (by decide)⟩

/-- Claim C4: concatenating the chunker's output in order with the overlapping
portions removed reproduces the original text exactly (in particular
losslessly modulo whitespace normalization at split points). -/
theorem claim_C4_roundtrip (text : Str) :
    ((create_chunksAnnotated text).map (fun c => c.1.drop c.2)).flatten = text := by
  rw [create_chunksAnnotated,
    mergeAux_join CHUNK_SIZE CHUNK_OVERLAP [] 0 _ (Nat.le_refl 0)]
  simp [join_recSplit]

/-! ## Vector Index (modelled from the spec) -/

/-- An (id, vector, document text) triple stored in the index.  Embedding
vectors are modelled as rational-valued lists. -/
structure IndexEntry where
  id : Str
  vec : List ℚ
  text : Str
deriving DecidableEq

/-- Modelled from the spec: the in-memory vector store (the chromadb
collection is an external library, absent from the repository). -/
structure VectorIndex where
  entries : List IndexEntry
deriving DecidableEq

/-- Squared L2 distance between two vectors, the distance metric chosen for
the model (used consistently at insert time and query time). -/
def dist2 (u v : List ℚ) : ℚ :=
  (List.zipWith (fun a b => (a - b) ^ 2) u v).sum

/-- Modelled from the spec: `insert(id, vector, text)` adds an entry and
fails if the id already exists. -/
def VectorIndex.insert (idx : VectorIndex) (i : Str) (v : List ℚ) (t : Str) :
    Option VectorIndex :=
  if idx.entries.any (fun e => e.id == i) then none
  else some ⟨idx.entries ++ [⟨i, v, t⟩]⟩

/-- The comparison used to rank stored entries against a query vector:
smaller distance first. -/
def nearer (v : List ℚ) (e₁ e₂ : IndexEntry) : Prop :=
  dist2 e₁.vec v ≤ dist2 e₂.vec v

instance (v : List ℚ) : DecidableRel (nearer v) := fun e₁ e₂ =>
  inferInstanceAs (Decidable (dist2 e₁.vec v ≤ dist2 e₂.vec v))

/-- Modelled from the spec: `query(vector, k)` returns the k stored entries
nearest to the vector, nearest first. -/
def VectorIndex.query (idx : VectorIndex) (v : List ℚ) (k : Nat) :
    List IndexEntry :=
  (idx.entries.insertionSort (nearer v)).take k

theorem dist2_nonneg (u v : List ℚ) : 0 ≤ dist2 u v := by
  rw [dist2]
  induction u generalizing v with
  | nil => simp
  | cons a as ih =>
    cases v with
    | nil => simp
    | cons b bs =>
      simp only [List.zipWith_cons_cons, List.sum_cons]
      exact add_nonneg (sq_nonneg _) (ih bs)

theorem dist2_self (v : List ℚ) : dist2 v v = 0 := by
  rw [dist2]
  induction v with
  | nil => rfl
  | cons a as ih => simp only [List.zipWith_cons_cons, List.sum_cons]; simp [ih]

theorem query_length (idx : VectorIndex) (v : List ℚ) (k : Nat) :
    (idx.query v k).length = min k idx.entries.length := by
  rw [VectorIndex.query, List.length_take,
    (List.perm_insertionSort (nearer v) idx.entries).length_eq]

theorem query_sorted (idx : VectorIndex) (v : List ℚ) (k : Nat) :
    (idx.query v k).Pairwise (nearer v) := by
  haveI : IsTotal IndexEntry (nearer v) :=
    ⟨fun e₁ e₂ => le_total (dist2 e₁.vec v) (dist2 e₂.vec v)⟩
  haveI : IsTrans IndexEntry (nearer v) :=
    ⟨fun e₁ e₂ e₃ h₁ h₂ => le_trans h₁ h₂⟩
  exact List.Pairwise.sublist (List.take_sublist k _)
    (List.sorted_insertionSort (nearer v) idx.entries)

theorem query_head_after_insert (idx idx₂ : VectorIndex) (i : Str)
    (v : List ℚ) (t : Str) (k : Nat)
    (hins : idx.insert i v t = some idx₂)
    (hfar : ∀ e ∈ idx.entries, dist2 e.vec v ≠ 0)
    (hk : 1 ≤ k) :
    (idx₂.query v k).head? = some ⟨i, v, t⟩ := by
  rw [VectorIndex.insert] at hins
  by_cases hany : idx.entries.any (fun e => e.id == i)
  · rw [if_pos hany] at hins; cases hins
  · rw [if_neg hany] at hins
    cases hins
    set e₀ : IndexEntry := ⟨i, v, t⟩ with he₀
    have hperm := List.perm_insertionSort (nearer v) (idx.entries ++ [e₀])
    haveI : IsTotal IndexEntry (nearer v) :=
      ⟨fun e₁ e₂ => le_total (dist2 e₁.vec v) (dist2 e₂.vec v)⟩
    haveI : IsTrans IndexEntry (nearer v) :=
      ⟨fun e₁ e₂ e₃ h₁ h₂ => le_trans h₁ h₂⟩
    have hsorted := List.sorted_insertionSort (nearer v) (idx.entries ++ [e₀])
    rcases hs : (idx.entries ++ [e₀]).insertionSort (nearer v) with _ | ⟨h, tl⟩
    · have := hperm.length_eq
      rw [hs] at this
      simp at this
    · rw [hs] at hperm hsorted
      have hhead_mem : h ∈ idx.entries ++ [e₀] := hperm.mem_iff.mp (by simp)
      have hzero : dist2 h.vec v = 0 := by
        have he₀mem : e₀ ∈ h :: tl := hperm.mem_iff.mpr (by simp)
        rcases List.mem_cons.mp he₀mem with he | he
        · rw [← he, he₀, dist2_self]
        · have hle : nearer v h e₀ :=
            (List.pairwise_cons.mp hsorted).1 e₀ he
          rw [nearer, he₀] at hle
          simp only [dist2_self] at hle
          exact le_antisymm hle (dist2_nonneg _ _)
      have hhe : h = e₀ := by
        rcases List.mem_append.mp hhead_mem with hm | hm
        · exact absurd hzero (hfar h hm)
        · simpa using hm
      rw [VectorIndex.query, hs]
      cases k with
      | zero => omega
      | succ n => simp [List.take_succ_cons, hhe]

/-- Claim C5 (counterexample): the insert-then-query part of the claim fails
as universally stated.  Into the index already holding the entry "a" with
vector [1], inserting the entry "b" with the duplicate vector [1] succeeds
(ids differ), yet querying with that exact vector [1] returns the older
entry "a" first, not the inserted entry "b". -/
theorem claim_C5_counterexample :
    ((⟨[⟨['a'], [1], ['x']⟩]⟩ : VectorIndex).insert ['b'] [1] ['y']
        = some ⟨[⟨['a'], [1], ['x']⟩, ⟨['b'], [1], ['y']⟩]⟩)
    ∧ ((⟨[⟨['a'], [1], ['x']⟩, ⟨['b'], [1], ['y']⟩]⟩ : VectorIndex).query
        [1] 2).head? = some ⟨['a'], [1], ['x']⟩
    ∧ (⟨['a'], [1], ['x']⟩ : IndexEntry) ≠ ⟨['b'], [1], ['y']⟩ := by
  refine ⟨rfl, ?_, ?_⟩
  · have h : nearer ([1] : List ℚ) ⟨['a'], [1], ['x']⟩ ⟨['b'], [1], ['y']⟩ := by
      show dist2 [1] [1] ≤ dist2 [1] [1]
      exact le_refl _
    rw [VectorIndex.query]
    simp only [List.insertionSort, List.orderedInsert]
    rw [if_pos h]
    rfl
  · intro h
    exact absurd (congrArg IndexEntry.id h) (by decide)

/-- Claim C5 (amended): the query operation returns at most k entries
(exactly min k n, hence fewer than k when the index holds fewer, and none
when it is empty), ordered nearest-first by the distance metric, and after
inserting an entry whose vector is at nonzero distance from every stored
vector — the proviso the counterexample forces: with a stored duplicate
vector the older entry is returned first — querying with that entry's exact
vector returns that entry first. -/
theorem claim_C5_query (idx : VectorIndex) (v : List ℚ) (k : Nat) :
    (idx.query v k).length ≤ k
    ∧ (idx.query v k).length = min k idx.entries.length
    ∧ (idx.entries = [] → idx.query v k = [])
    ∧ (idx.query v k).Pairwise (nearer v)
    ∧ (∀ (idx₂ : VectorIndex) (i : Str) (w : List ℚ) (t : Str),
        idx.insert i w t = some idx₂ →
        (∀ e ∈ idx.entries, dist2 e.vec w ≠ 0) →
        1 ≤ k →
        (idx₂.query w k).head? = some ⟨i, w, t⟩) := by
  refine ⟨?_, query_length idx v k, ?_, query_sorted idx v k, ?_⟩
  · rw [query_length]; exact min_le_left _ _
  · intro h
    rw [VectorIndex.query, h]
    simp [List.insertionSort]
  · intro idx₂ i w t hins hfar hk
    exact query_head_after_insert idx idx₂ i w t k hins hfar hk

theorem claim_C5_witness :
    ((⟨[⟨['a'], [1, 0], ['x']⟩]⟩ : VectorIndex).insert ['b'] [0, 1] ['y']
        = some ⟨[⟨['a'], [1, 0], ['x']⟩, ⟨['b'], [0, 1], ['y']⟩]⟩)
    ∧ (∀ e ∈ (⟨[⟨['a'], [1, 0], ['x']⟩]⟩ : VectorIndex).entries,
        dist2 e.vec [0, 1] ≠ 0)
    ∧ (1 ≤ 2)
    ∧ ((⟨[⟨['a'], [1, 0], ['x']⟩, ⟨['b'], [0, 1], ['y']⟩]⟩ : VectorIndex).query
        [0, 1] 2).head? = some ⟨['b'], [0, 1], ['y']⟩ :=
  have hfar : ∀ e ∈ (⟨[⟨['a'], [1, 0], ['x']⟩]⟩ : VectorIndex).entries,
      dist2 e.vec [0, 1] ≠ 0 := by
    intro e he
    rw [List.mem_singleton] at he
    subst he
    rw [dist2]
    norm_num
  ⟨rfl, hfar, by decide,
    (claim_C5_query ⟨[⟨['a'], [1, 0], ['x']⟩]⟩ [0, 1] 2).2.2.2.2
      ⟨[⟨['a'], [1, 0], ['x']⟩, ⟨['b'], [0, 1], ['y']⟩]⟩ ['b'] [0, 1] ['y']
      rfl hfar (by decide)⟩

/-! ## Generation client and Query Orchestrator (from `ask_model`) -/

/-- The JSON body sent to the generation service: exactly the fields
`{model, prompt, temperature, max_tokens, stream}` of the source payload. -/
structure GenPayload where
  model : String
  prompt : Str
  temperature : ℚ
  max_tokens : Nat
  stream : Bool
deriving DecidableEq

/-- Configuration constant from the source: `MODEL_NAME = "llama3.2:3b"`. -/
def MODEL_NAME : String := "llama3.2:3b"

/-- Configuration constant from the source: the generation endpoint URL. -/
def OLLAMA_API_URL : String := "http://localhost:11434/api/generate"

/-- The JSON object returned by `POST /ask`, holding the answer text. -/
structure AskResponse where
  answer : Str
deriving DecidableEq

/-- Steps 1–4 of `ask_model` (source lines 82–101): embed the question, query
the index for the top 3 entries, join the retrieved texts with a blank-line
separator, build the prompt, and assemble the fixed-parameter payload. -/
def ask_payload (embed : Str → List ℚ) (idx : VectorIndex) (question : Str) :
    GenPayload :=
  let embedding := embed question
  let results := idx.query embedding 3
  let context := List.intercalate ['\n', '\n'] (results.map (fun e => e.text))
  let prompt := build_prompt context question
  { model := MODEL_NAME, prompt := prompt, temperature := 0.2,
    max_tokens := 500, stream := false }

/-- Embedding of `ask_model` from the source.  The generation service is abstracted as a
function `post` from the payload to the JSON object of its reply (an
association list of string fields); the first component of the result records
the payloads actually posted — the handler posts exactly one.  The answer is
`result.get("response", "")`. -/
def ask_model (embed : Str → List ℚ) (post : GenPayload → List (String × Str))
    (idx : VectorIndex) (question : Str) : List GenPayload × AskResponse :=
  let payload := ask_payload embed idx question
  let result := post payload
  let answer := (List.lookup "response" result).getD []
  ([payload], ⟨answer⟩)

/-- Claim C1: each `POST /ask` request runs the fixed pipeline — embed the
question, query for the top 3 entries, join the retrieved texts with a
blank-line separator, build the prompt from context and question — and posts
exactly one payload with exactly the fields model = "llama3.2:3b", that
prompt, temperature 0.2, max_tokens 500 and stream false, returning the
reply's answer text. -/
theorem claim_C1_pipeline (embed : Str → List ℚ)
    (post : GenPayload → List (String × Str)) (idx : VectorIndex) (q : Str) :
    (ask_model embed post idx q).1
        = [{ model := MODEL_NAME,
             prompt := build_prompt
               (List.intercalate ['\n', '\n']
                 ((idx.query (embed q) 3).map (fun e => e.text))) q,
             temperature := 0.2, max_tokens := 500, stream := false }]
    ∧ (ask_model embed post idx q).2
        = ⟨(List.lookup "response" (post (ask_payload embed idx q))).getD []⟩
    ∧ MODEL_NAME = "llama3.2:3b" :=
  ⟨rfl, rfl, rfl⟩

/-- Claim C2: if the generation service's JSON reply lacks the `response`
field the orchestrator returns the empty answer rather than an error; if the
field is present its value is returned as the answer. -/
theorem claim_C2_default_empty (embed : Str → List ℚ)
    (post : GenPayload → List (String × Str)) (idx : VectorIndex) (q : Str) :
    (List.lookup "response" (post (ask_payload embed idx q)) = none →
      (ask_model embed post idx q).2 = ⟨[]⟩)
    ∧ (∀ a, List.lookup "response" (post (ask_payload embed idx q)) = some a →
      (ask_model embed post idx q).2 = ⟨a⟩) := by
  constructor
  · intro h
    simp [ask_model, h]
  · intro a h
    simp [ask_model, h]

theorem claim_C2_witness :
    (List.lookup "response"
        ((fun _ : GenPayload => ([] : List (String × Str)))
          (ask_payload (fun _ => []) ⟨[]⟩ [])) = none)
    ∧ (ask_model (fun _ => []) (fun _ => []) ⟨[]⟩ []).2 = ⟨[]⟩ :=
  ⟨rfl, (claim_C2_default_empty (fun _ => []) (fun _ => []) ⟨[]⟩ []).1 rfl⟩

/-! ## Build phase (from the startup loop over `enumerate(chunks)`) -/

/-- Decimal string of a natural number, modelling Python's `str(i)` used for
the chunk ids. -/
def natStr (n : Nat) : Str :=
  if n = 0 then ['0'] else ((Nat.digits 10 n).map Nat.digitChar).reverse

/-- Left inverse of `natStr`: read a decimal digit string back. -/
def natParse (s : Str) : Nat :=
  Nat.ofDigits 10 (s.reverse.map (fun c => c.toNat - 48))

theorem natParse_natStr (n : Nat) : natParse (natStr n) = n := by
  rw [natStr]
  by_cases h : n = 0
  · rw [if_pos h, h]
    decide
  · rw [if_neg h, natParse, List.reverse_reverse, List.map_map]
    have hdig : ∀ d ∈ Nat.digits 10 n,
        ((fun c => c.toNat - 48) ∘ Nat.digitChar) d = d := by
      intro d hd
      have hlt : d < 10 := Nat.digits_lt_base (by norm_num) hd
      interval_cases d <;> rfl
    rw [List.map_congr_left hdig]
    simp [Nat.ofDigits_digits]

theorem natStr_injective : Function.Injective natStr := by
  intro a b h
  have h2 := congrArg natParse h
  rwa [natParse_natStr, natParse_natStr] at h2

/-- The startup build loop of the source: one `insert` per chunk, in document
order, with id `str(i)` and the chunk's embedding and text.  `insert` is the
fallible spec-modelled index operation, so the build is `Option`-valued. -/
def buildIndex (embed : Str → List ℚ) (chunks : List Str) : Option VectorIndex :=
  List.foldlM (fun idx ic => idx.insert (natStr ic.1) (embed ic.2) ic.2)
    ⟨[]⟩ chunks.enum

theorem buildIndex_go (embed : Str → List ℚ) (chunks : List Str) :
    ∀ (i : Nat) (idx : VectorIndex),
      idx.entries.map (fun e => e.id) = (List.range i).map natStr →
      ∃ idx₂,
        List.foldlM (fun idx ic => idx.insert (natStr ic.1) (embed ic.2) ic.2)
            idx (List.enumFrom i chunks) = some idx₂
        ∧ idx₂.entries.map (fun e => e.id)
            = (List.range (i + chunks.length)).map natStr := by
  induction chunks with
  | nil =>
    intro i idx hids
    exact ⟨idx, rfl, by simpa using hids⟩
  | cons c cs ih =>
    intro i idx hids
    have hnot : ¬ idx.entries.any (fun e => e.id == natStr i) = true := by
      rw [List.any_eq_true]
      rintro ⟨e, he, heq⟩
      rw [beq_iff_eq] at heq
      have hmem : e.id ∈ idx.entries.map (fun e => e.id) :=
        List.mem_map_of_mem _ he
      rw [hids, heq] at hmem
      obtain ⟨j, hj, hjeq⟩ := List.mem_map.mp hmem
      have : j = i := natStr_injective hjeq
      rw [List.mem_range] at hj
      omega
    have hins : idx.insert (natStr i) (embed c) c
        = some ⟨idx.entries ++ [⟨natStr i, embed c, c⟩]⟩ := by
      rw [VectorIndex.insert, if_neg hnot]
    have hids₂ : (VectorIndex.mk (idx.entries ++ [⟨natStr i, embed c, c⟩])).entries.map
          (fun e => e.id) = (List.range (i + 1)).map natStr := by
      simp [hids, List.range_succ]
    obtain ⟨idx₂, hfold, hids₃⟩ := ih (i + 1) ⟨idx.entries ++ [⟨natStr i, embed c, c⟩]⟩ hids₂
    refine ⟨idx₂, ?_, ?_⟩
    · rw [List.enumFrom_cons, List.foldlM_cons, hins]
      simpa using hfold
    · rw [hids₃]
      have : i + 1 + cs.length = i + (c :: cs).length := by simp; omega
      rw [this]

/-- Claim C10: the build phase performs one insert per chunk with id the
chunk's position converted to a string; those ids are pairwise distinct, so
the duplicate-id failure branch of `insert` is unreachable and the build
always succeeds, producing exactly the ids "0", "1", ..., str(n-1) in
order. -/
theorem claim_C10_build_ids (embed : Str → List ℚ) (chunks : List Str) :
    ∃ idx, buildIndex embed chunks = some idx
      ∧ idx.entries.map (fun e => e.id) = (List.range chunks.length).map natStr
      ∧ ((List.range chunks.length).map natStr).Nodup := by
  obtain ⟨idx, h1, h2⟩ := buildIndex_go embed chunks 0 ⟨[]⟩ (by simp)
  refine ⟨idx, ?_, by simpa using h2, ?_⟩
  · rw [buildIndex, List.enum_eq_enumFrom]
    exact h1
  · exact (List.nodup_range _).map natStr_injective

/-- Claim C8: on an empty source document the pipeline degrades gracefully —
no chunks, an index built empty, empty retrieval for any query, an empty
context string in the prompt that is still built and sent once, and a
normally completed request. -/
theorem claim_C8_empty_document (embed : Str → List ℚ)
    (post : GenPayload → List (String × Str)) (q : Str) :
    extract_pdf_text [] = []
    ∧ create_chunks [] = []
    ∧ buildIndex embed (create_chunks []) = some ⟨[]⟩
    ∧ (∀ (v : List ℚ) (k : Nat), VectorIndex.query ⟨[]⟩ v k = [])
    ∧ ask_payload embed ⟨[]⟩ q
        = { model := MODEL_NAME, prompt := build_prompt [] q,
            temperature := 0.2, max_tokens := 500, stream := false }
    ∧ (ask_model embed post ⟨[]⟩ q).1 = [ask_payload embed ⟨[]⟩ q]
    ∧ (ask_model embed post ⟨[]⟩ q).2
        = ⟨(List.lookup "response" (post (ask_payload embed ⟨[]⟩ q))).getD []⟩ := by
  refine ⟨rfl, rfl, rfl, ?_, ?_, rfl, rfl⟩
  · intro v k
    rw [VectorIndex.query]
    simp [List.insertionSort]
  · rw [ask_payload]
    simp [VectorIndex.query, List.insertionSort, List.intercalate]

/-! ## HTTP surface (from the FastAPI endpoints) -/

/-- A request to the HTTP surface: `POST /ask` with a question, or
`GET /`. -/
inductive Request where
  | ask (q : Str)
  | root

/-- A response from the HTTP surface. -/
inductive ServerReply where
  | answered (r : AskResponse)
  | message (m : String)

/-- The process state shared by the handlers: the vector index built at
startup. -/
structure ServerState where
  index : VectorIndex
deriving DecidableEq

/-- The `GET /` health message from the source. -/
def ROOT_MESSAGE : String := "FastAPI + Llama3.2:3b is running 🚀"

/-- The request handlers of the source, as a step function on the process
state: `POST /ask` runs `ask_model` against the index, `GET /` returns the
health message.  Each handler returns the (unchanged) state it ran in. -/
def handle (embed : Str → List ℚ) (post : GenPayload → List (String × Str))
    (s : ServerState) : Request → ServerState × ServerReply
  | Request.ask q => (s, ServerReply.answered (ask_model embed post s.index q).2)
  | Request.root => (s, ServerReply.message ROOT_MESSAGE)

/-- Startup: extract the document, chunk it, build the index once. -/
def startup (embed : Str → List ℚ) (pages : List Str) : Option ServerState :=
  (buildIndex embed (create_chunks (extract_pdf_text pages))).map
    (fun idx => ⟨idx⟩)

/-- A run of the server over a sequence of requests after startup. -/
def runRequests (embed : Str → List ℚ)
    (post : GenPayload → List (String × Str)) (s : ServerState)
    (reqs : List Request) : ServerState :=
  reqs.foldl (fun st r => (handle embed post st r).1) s

theorem handle_fst (embed : Str → List ℚ)
    (post : GenPayload → List (String × Str)) (s : ServerState)
    (r : Request) : (handle embed post s r).1 = s := by
  cases r <;> rfl

/-- Claim C9: the vector index is read-only after the build: no request —
`POST /ask` or `GET /` — mutates the server state, and hence any sequence of
requests leaves the index exactly as startup built it. -/
theorem claim_C9_read_only (embed : Str → List ℚ)
    (post : GenPayload → List (String × Str)) (s : ServerState)
    (r : Request) (reqs : List Request) :
    (handle embed post s r).1.index = s.index
    ∧ runRequests embed post s reqs = s := by
  constructor
  · rw [handle_fst]
  · induction reqs with
    | nil => rfl
    | cons r₀ rs ih =>
      rw [runRequests, List.foldl_cons, handle_fst]
      exact ih

end Snap
